import Mathlib

/-!
Verification of the usage query windowing iterator, the streaming JSON
array encoder, and the robot delete command of the `up` CLI repository.

Time instants are modelled as natural numbers of seconds since the Unix
epoch (UTC); durations as natural numbers of seconds. All calendar
rendering uses the proleptic Gregorian calendar in UTC, matching Go's
`time` package for post-epoch instants.
-/

deriving instance DecidableEq for Except

namespace Up

/-- One hour in seconds. -/
def hourSecs : Nat := 3600

/-- Truncate an instant down to whole-hour precision (Go `t.Truncate(time.Hour)`
for post-epoch instants). -/
def truncateHour (t : Nat) : Nat := t - t % 3600

/-- Truncate a duration down to whole-hour precision (Go
`d.Truncate(time.Hour)` for non-negative durations). -/
def truncateHourDur (d : Nat) : Nat := d - d % 3600

/-- Convert a count of days since 1970-01-01 to a Gregorian (year, month, day)
in UTC, the standard civil-from-days algorithm. -/
def dateOfDays (z : Nat) : Nat × Nat × Nat :=
  let z' := z + 719468
  let era := z' / 146097
  let doe := z' % 146097
  let yoe := (doe - doe / 1460 + doe / 36524 - doe / 146096) / 365
  let y := yoe + era * 400
  let doy := doe - (365 * yoe + yoe / 4 - yoe / 100)
  let mp := (5 * doy + 2) / 153
  let d := doy - (153 * mp + 2) / 5 + 1
  let m := if mp < 10 then mp + 3 else mp - 9
  (if m ≤ 2 then y + 1 else y, m, d)

/-- The character for a decimal digit. -/
def digitChar (n : Nat) : Char := Char.ofNat (48 + n % 10)

/-- Render a natural number as two decimal digits, zero padded. -/
def pad2 (n : Nat) : String := String.mk [digitChar (n / 10), digitChar n]

/-- Render a natural number as four decimal digits, zero padded. -/
def pad4 (n : Nat) : String :=
  String.mk [digitChar (n / 1000), digitChar (n / 100), digitChar (n / 10), digitChar n]

/-- Modelled from the spec: the path-offset renderer shared by the single-shot
query builder and the iterator (the Go implementation file is not in the
repository snapshot; only its tests are). Given an hour-truncated instant `t`,
renders `account=<account>/date=<YYYY-MM-DD>/hour=<HH>/` using UTC calendar
fields. -/
def queryOffset (account : String) (t : Nat) : String :=
  let ymd := dateOfDays (t / 86400)
  let hour := t % 86400 / 3600
  "account=" ++ account ++ "/date=" ++ pad4 ymd.1 ++ "-" ++ pad2 ymd.2.1 ++ "-" ++
    pad2 ymd.2.2 ++ "/hour=" ++ pad2 hour ++ "/"

/-- Error message for a window below the one-hour minimum. -/
def errWindowTooSmall : String := "window must be 1h or greater"

/-- Error message for a range whose end precedes its start. -/
def errEndBeforeStart : String := "endTime must occur after startTime"

/-- Modelled from the spec: the standalone single-shot query builder
`UsageQuery` (its Go implementation file is not in the repository snapshot;
only its tests are). Truncates both times to the hour, rejects a range whose
end precedes its start, and returns the start and end path offsets. -/
def UsageQuery (account : String) (startTime endTime : Nat) :
    Except String (String × String) :=
  let s := truncateHour startTime
  let e := truncateHour endTime
  if e < s then .error errEndBeforeStart
  else .ok (queryOffset account s, queryOffset account e)

/-- The usage query iterator state, mirroring the Go struct
`UsageQueryIterator` (fields `Account`, `Cursor`, `EndTime`, `Window`). -/
structure UsageQueryIterator where
  Account : String
  Cursor : Nat
  EndTime : Nat
  Window : Nat
deriving DecidableEq, Repr

/-- Modelled from the spec: `NewUsageQueryIterator` (its Go implementation
file is not in the repository snapshot; only its tests are). Truncates the
window to whole hours and rejects windows below one hour; truncates start and
end to the hour and rejects a range whose end precedes its start. -/
def NewUsageQueryIterator (account : String) (startTime endTime window : Nat) :
    Except String UsageQueryIterator :=
  let w := truncateHourDur window
  if w < hourSecs then .error errWindowTooSmall
  else
    let s := truncateHour startTime
    let e := truncateHour endTime
    if e < s then .error errEndBeforeStart
    else .ok ⟨account, s, e, w⟩

/-- Modelled from the spec: `More` reports whether the iterator has not
reached the end of its range. -/
def UsageQueryIterator.More (it : UsageQueryIterator) : Bool :=
  it.Cursor < it.EndTime

/-- Error message for advancing an exhausted iterator. -/
def errExhausted : String := "iterator is exhausted"

/-- Modelled from the spec: `Next` produces one step. It computes
`stepEnd = min(cursor + window, endTime)`, builds the path offsets for
`[cursor, stepEnd)`, advances the cursor to `stepEnd` and returns the step
descriptor `(startOffset, endOffset, start, end)` together with the advanced
iterator state (the Go method mutates the receiver in place). -/
def UsageQueryIterator.Next (it : UsageQueryIterator) :
    Except String ((String × String × Nat × Nat) × UsageQueryIterator) :=
  if it.EndTime ≤ it.Cursor then .error errExhausted
  else
    let stepEnd := min (it.Cursor + it.Window) it.EndTime
    .ok ((queryOffset it.Account it.Cursor, queryOffset it.Account stepEnd,
          it.Cursor, stepEnd),
         { it with Cursor := stepEnd })

/-- Drive the iterator as the tests do: while `More()` holds, call `Next()`
and collect the step descriptors. `fuel` bounds the number of steps. -/
def runIter : Nat → UsageQueryIterator → List (String × String × Nat × Nat)
  | 0, _ => []
  | fuel + 1, it =>
    if it.More then
      match it.Next with
      | .ok (step, it') => step :: runIter fuel it'
      | .error _ => []
    else []

/-- The sub-range boundaries of the steps produced by running the iterator. -/
def subRanges (it : UsageQueryIterator) (fuel : Nat) : List (Nat × Nat) :=
  (runIter fuel it).map (fun q => q.2.2)

/-- The list `l` of half-open intervals partitions `[a, b)` contiguously:
each interval is nonempty, starts where the previous one ended, the first
starts at `a` and the last ends at `b`. -/
def isChain : Nat → Nat → List (Nat × Nat) → Prop
  | a, b, [] => a = b
  | a, b, p :: rest => p.1 = a ∧ a < p.2 ∧ isChain p.2 b rest

/-- A byte sink, the embedding of Go's `io.Writer`: a state and a write
operation that either appends and returns the new state or fails with an
error. A failed write is modelled as consuming nothing. -/
structure Sink (σ : Type) where
  write : σ → String → Except String σ

/-- The streaming JSON array encoder, mirroring the Go struct
`MCPGVKEventEncoder` (fields `w` and `wroteFirstItem`). -/
structure MCPGVKEventEncoder (σ : Type) where
  w : σ
  wroteFirstItem : Bool
deriving DecidableEq, Repr

/-- The constructor `NewMCPGVKEventEncoder`: writes the open bracket to the
sink; a write failure fails construction. -/
def NewMCPGVKEventEncoder {σ : Type} (S : Sink σ) (w : σ) :
    Except String (MCPGVKEventEncoder σ) :=
  match S.write w "[" with
  | .error err => .error err
  | .ok w2 => .ok ⟨w2, false⟩

/-- The `Encode` method. An event is embedded as its `json.Marshal` outcome:
`.ok bytes` when serialization succeeds, `.error err` when it fails. The
method builds the byte sequence (comma separator if an item was already
written, then a newline, then the serialized event), writes it in one call,
and marks `wroteFirstItem` only when the write succeeded. It returns the
encoder state after the call and the error, if any. -/
def MCPGVKEventEncoder.Encode {σ : Type} (S : Sink σ) (e : MCPGVKEventEncoder σ)
    (event : Except String String) : MCPGVKEventEncoder σ × Option String :=
  let b := (if e.wroteFirstItem then "," else "") ++ "\n"
  match event with
  | .error err => (e, some err)
  | .ok eventBytes =>
    match S.write e.w (b ++ eventBytes) with
    | .error err => (e, some err)
    | .ok w2 => (⟨w2, true⟩, none)

/-- The `Close` method: writes the closing sequence (newline, close bracket,
newline) to the sink. -/
def MCPGVKEventEncoder.Close {σ : Type} (S : Sink σ) (e : MCPGVKEventEncoder σ) :
    MCPGVKEventEncoder σ × Option String :=
  match S.write e.w "\n]\n" with
  | .error err => (e, some err)
  | .ok w2 => (⟨w2, e.wroteFirstItem⟩, none)

/-- An in-memory sink that accepts every write and appends it to a buffer,
the embedding of `bytes.Buffer`. -/
def bufSink : Sink String := ⟨fun s b => .ok (s ++ b)⟩

/-- Run the encoder pipeline over a buffer: encode each event in order, then
close; stop at the first error. Returns the final buffer contents. -/
def encodeAllGo : List (Except String String) → MCPGVKEventEncoder String →
    Except String String
  | [], enc =>
    match MCPGVKEventEncoder.Close bufSink enc with
    | (enc2, none) => .ok enc2.w
    | (_, some err) => .error err
  | ev :: rest, enc =>
    match MCPGVKEventEncoder.Encode bufSink enc ev with
    | (enc2, none) => encodeAllGo rest enc2
    | (_, some err) => .error err

/-- Construct an encoder over an empty buffer and run the pipeline. -/
def encodeAll (events : List (Except String String)) : Except String String :=
  match NewMCPGVKEventEncoder bufSink "" with
  | .error err => .error err
  | .ok enc => encodeAllGo events enc

/-- The double-quote character. -/
def chQuote : Char := Char.ofNat 34

/-- The comma character. -/
def chComma : Char := Char.ofNat 44

/-- The colon character. -/
def chColon : Char := Char.ofNat 58

/-- The open-bracket character. -/
def chLBracket : Char := Char.ofNat 91

/-- The close-bracket character. -/
def chRBracket : Char := Char.ofNat 93

/-- The open-brace character. -/
def chLBrace : Char := Char.ofNat 123

/-- The close-brace character. -/
def chRBrace : Char := Char.ofNat 125

/-- JSON whitespace: space, line feed, tab, carriage return. -/
def isWsChar (c : Char) : Bool := c.toNat = 32 || c.toNat = 10 || c.toNat = 9 || c.toNat = 13

/-- ASCII decimal digit. -/
def isDigitChar (c : Char) : Bool := 48 ≤ c.toNat && c.toNat ≤ 57

/-- A JSON value, as far as the encoder's output streams need: numbers,
strings, arrays and objects. -/
inductive JsonVal where
  | num : Nat → JsonVal
  | str : String → JsonVal
  | arr : List JsonVal → JsonVal
  | obj : List (String × JsonVal) → JsonVal

/-- Drop leading JSON whitespace. -/
def skipWs : List Char → List Char
  | [] => []
  | c :: cs => if isWsChar c then skipWs cs else c :: cs

/-- Read a JSON string body (no escape sequences) up to the closing quote. -/
def strBody (acc : List Char) : List Char → Option (String × List Char)
  | [] => none
  | c :: cs => if c = chQuote then some (String.mk acc.reverse, cs) else strBody (c :: acc) cs

/-- Read a run of decimal digits into a number. -/
def digitsVal (acc : Nat) : List Char → Nat × List Char
  | [] => (acc, [])
  | c :: cs => if isDigitChar c then digitsVal (acc * 10 + (c.toNat - 48)) cs else (acc, c :: cs)

/-- Parse the comma-separated elements of a nonempty JSON array up to the
closing bracket, given a parser `pv` for one value. -/
def parseItems (pv : List Char → Option (JsonVal × List Char)) :
    Nat → List Char → Option (List JsonVal × List Char)
  | 0, _ => none
  | fuel + 1, cs =>
    match pv cs with
    | none => none
    | some (v, rest) =>
      match skipWs rest with
      | [] => none
      | c :: rest2 =>
        if c = chComma then
          match parseItems pv fuel rest2 with
          | some (vs, r) => some (v :: vs, r)
          | none => none
        else if c = chRBracket then some ([v], rest2)
        else none

/-- Parse the comma-separated fields of a nonempty JSON object up to the
closing brace, given a parser `pv` for one value. -/
def parseFields (pv : List Char → Option (JsonVal × List Char)) :
    Nat → List Char → Option (List (String × JsonVal) × List Char)
  | 0, _ => none
  | fuel + 1, cs =>
    match skipWs cs with
    | [] => none
    | c :: cs2 =>
      if c = chQuote then
        match strBody [] cs2 with
        | none => none
        | some (k, rest) =>
          match skipWs rest with
          | [] => none
          | c2 :: rest2 =>
            if c2 = chColon then
              match pv rest2 with
              | none => none
              | some (v, rest3) =>
                match skipWs rest3 with
                | [] => none
                | c3 :: rest4 =>
                  if c3 = chComma then
                    match parseFields pv fuel rest4 with
                    | some (fs, r) => some ((k, v) :: fs, r)
                    | none => none
                  else if c3 = chRBrace then some ([(k, v)], rest4)
                  else none
            else none
      else none

/-- Parse one JSON value; the first argument bounds the nesting depth. -/
def parseVal : Nat → List Char → Option (JsonVal × List Char)
  | 0, _ => none
  | d + 1, cs =>
    match skipWs cs with
    | [] => none
    | c :: cs2 =>
      if c = chLBracket then
        match skipWs cs2 with
        | [] => none
        | c2 :: cs3 =>
          if c2 = chRBracket then some (.arr [], cs3)
          else
            match parseItems (parseVal d) (cs2.length + 1) cs2 with
            | some (vs, r) => some (.arr vs, r)
            | none => none
      else if c = chLBrace then
        match skipWs cs2 with
        | [] => none
        | c2 :: cs3 =>
          if c2 = chRBrace then some (.obj [], cs3)
          else
            match parseFields (parseVal d) (cs2.length + 1) cs2 with
            | some (fs, r) => some (.obj fs, r)
            | none => none
      else if c = chQuote then
        match strBody [] cs2 with
        | some (s, r) => some (.str s, r)
        | none => none
      else if isDigitChar c then
        let dv := digitsVal (c.toNat - 48) cs2
        some (.num dv.1, dv.2)
      else none

/-- Parse a complete JSON document: one value followed only by whitespace. -/
def parseJSON (s : String) : Option JsonVal :=
  match parseVal (s.length + 1) s.data with
  | some (v, rest) => if skipWs rest = [] then some v else none
  | none => none

/-- A robot as returned by `ListRobots`: a (not necessarily unique) name and
an ID. -/
structure Robot where
  Name : String
  ID : Nat
deriving DecidableEq, Repr

/-- The `errMultipleRobotFmt` message, instantiated. -/
def errMultipleRobot (name account : String) : String :=
  "found multiple robots with name " ++ name ++ " in " ++ account

/-- The `errFindRobotFmt` message, instantiated. -/
def errFindRobot (name account : String) : String :=
  "could not find robot " ++ name ++ " in " ++ account

/-- The matching loop of the robot delete command's `Run`: scan the listed
robots in order; on a second match without `Force`, fail with the multiple
robots error; otherwise remember the ID of the match (overwriting any
earlier one). -/
def findRobotID (force : Bool) (name account : String) :
    List Robot → Option Nat → Except String (Option Nat)
  | [], acc => .ok acc
  | r :: rest, acc =>
    if r.Name = name then
      if acc.isSome && !force then .error (errMultipleRobot name account)
      else findRobotID force name account rest (some r.ID)
    else findRobotID force name account rest acc

/-- The robot delete command's `Run`, from the listing onward: an empty
listing or no match fails with the find error; otherwise the loop determines
the ID that is deleted (returned here). -/
def deleteCmdRun (force : Bool) (name account : String) (rs : List Robot) :
    Except String Nat :=
  if rs.length = 0 then .error (errFindRobot name account)
  else
    match findRobotID force name account rs none with
    | .error err => .error err
    | .ok none => .error (errFindRobot name account)
    | .ok (some i) => .ok i

/-- The ID of the last robot in the list whose name matches, if any. -/
def lastMatchID (name : String) : List Robot → Option Nat
  | [] => none
  | r :: rest =>
    match lastMatchID name rest with
    | some i => some i
    | none => if r.Name = name then some r.ID else none

/-- The number of robots in the list whose name matches. -/
def matchCount (name : String) (rs : List Robot) : Nat :=
  (rs.filter (fun r => r.Name == name)).length

theorem isChain_le {a b : Nat} {l : List (Nat × Nat)} (h : isChain a b l) : a ≤ b := by
  induction l generalizing a with
  | nil => exact Nat.le_of_eq h
  | cons p rest ih =>
    obtain ⟨-, h2, h3⟩ := h
    exact Nat.le_trans (Nat.le_of_lt h2) (ih h3)

theorem isChain_bounds {a b : Nat} {l : List (Nat × Nat)} (h : isChain a b l) :
    ∀ p ∈ l, a ≤ p.1 ∧ p.2 ≤ b := by
  induction l generalizing a with
  | nil => intro p hp; cases hp
  | cons q rest ih =>
    obtain ⟨h1, h2, h3⟩ := h
    intro p hp
    rcases List.mem_cons.mp hp with hq | hm
    · subst hq
      exact ⟨Nat.le_of_eq h1.symm, isChain_le h3⟩
    · have := ih h3 p hm
      omega

theorem isChain_union {a b : Nat} {l : List (Nat × Nat)} (h : isChain a b l) :
    ∀ x, (∃ p ∈ l, p.1 ≤ x ∧ x < p.2) ↔ (a ≤ x ∧ x < b) := by
  induction l generalizing a with
  | nil => simp only [isChain] at h; subst h; simp
  | cons q rest ih =>
    obtain ⟨h1, h2, h3⟩ := h
    intro x
    have hub := isChain_le h3
    constructor
    · rintro ⟨p, hp, hx1, hx2⟩
      rcases List.mem_cons.mp hp with hq | hm
      · subst hq; omega
      · have hb := isChain_bounds h3 p hm
        omega
    · intro hx
      by_cases hc : x < q.2
      · exact ⟨q, List.mem_cons_self q rest, by omega, hc⟩
      · obtain ⟨p, hp, hb⟩ := ((ih h3) x).mpr (by omega)
        exact ⟨p, List.mem_cons_of_mem q hp, hb⟩

theorem isChain_pairwise {a b : Nat} {l : List (Nat × Nat)} (h : isChain a b l) :
    l.Pairwise (fun p q => p.2 ≤ q.1) := by
  induction l generalizing a with
  | nil => exact List.Pairwise.nil
  | cons q rest ih =>
    obtain ⟨-, -, h3⟩ := h
    exact List.Pairwise.cons (fun p hp => (isChain_bounds h3 p hp).1) (ih h3)

theorem isChain_getLast {a b : Nat} {l : List (Nat × Nat)} (h : isChain a b l) :
    ∀ hne : l ≠ [], (l.getLast hne).2 = b := by
  induction l generalizing a with
  | nil => intro hne; exact absurd rfl hne
  | cons q rest ih =>
    obtain ⟨-, h2, h3⟩ := h
    intro hne
    cases rest with
    | nil => simpa [List.getLast, isChain] using h3
    | cons r t => simpa [List.getLast] using ih h3 (by simp)

/-- The subranges produced by running the iterator form a contiguous chain
from the cursor to the end time, provided the window is positive and the
fuel covers the remaining range. -/
theorem runIter_isChain (fuel : Nat) (it : UsageQueryIterator)
    (hw : 1 ≤ it.Window) (hc : it.Cursor ≤ it.EndTime)
    (hf : it.EndTime ≤ it.Cursor + fuel) :
    isChain it.Cursor it.EndTime ((runIter fuel it).map (fun q => q.2.2)) := by
  induction fuel generalizing it with
  | zero => simp only [runIter, List.map_nil, isChain]; omega
  | succ n ih =>
    by_cases hm : it.Cursor < it.EndTime
    · have hnext : it.Next = .ok
          ((queryOffset it.Account it.Cursor,
            queryOffset it.Account (min (it.Cursor + it.Window) it.EndTime),
            it.Cursor, min (it.Cursor + it.Window) it.EndTime),
           ⟨it.Account, min (it.Cursor + it.Window) it.EndTime,
            it.EndTime, it.Window⟩) := by
        simp [UsageQueryIterator.Next, Nat.not_le.mpr hm]
      have hmore : it.More = true := by
        simp [UsageQueryIterator.More, hm]
      rw [runIter, if_pos hmore, hnext]
      simp only [List.map_cons]
      refine ⟨rfl, by omega, ?_⟩
      exact ih ⟨it.Account, min (it.Cursor + it.Window) it.EndTime,
        it.EndTime, it.Window⟩ hw (by simp) (by simp; omega)
    · have hmore : it.More = false := by
        simp [UsageQueryIterator.More]; omega
      rw [runIter, if_neg (by simp [hmore])]
      simp only [List.map_nil, isChain]; omega

/-- Under the claims' preconditions the constructor succeeds and stores the
hour-truncated fields. -/
theorem newIterator_ok (a : String) (s e w : Nat) (hw : 3600 ≤ w)
    (hse : truncateHour s ≤ truncateHour e) :
    NewUsageQueryIterator a s e w =
      .ok ⟨a, truncateHour s, truncateHour e, truncateHourDur w⟩ := by
  unfold NewUsageQueryIterator hourSecs
  have h1 : ¬ truncateHourDur w < 3600 := by unfold truncateHourDur; omega
  have h2 : ¬ truncateHour e < truncateHour s := by omega
  simp [h1, h2]

/-- C1: for every window of at least one hour and start not after end, the
sub-ranges produced by exhausting the iterator are contiguous half-open
intervals partitioning `[truncate(start), truncate(end))` (`isChain`), their
union is exactly that interval, they are pairwise non-overlapping, and the
final sub-range's end equals `truncate(end)` exactly. -/
theorem claim1_iterator_partition (a : String) (s e w : Nat)
    (hw : 3600 ≤ w) (hse : s ≤ e) (it : UsageQueryIterator)
    (hit : NewUsageQueryIterator a s e w = .ok it) :
    isChain (truncateHour s) (truncateHour e)
      (subRanges it (truncateHour e - truncateHour s)) ∧
    (∀ x, (∃ p ∈ subRanges it (truncateHour e - truncateHour s), p.1 ≤ x ∧ x < p.2) ↔
      (truncateHour s ≤ x ∧ x < truncateHour e)) ∧
    (subRanges it (truncateHour e - truncateHour s)).Pairwise (fun p q => p.2 ≤ q.1) ∧
    ∀ hne : subRanges it (truncateHour e - truncateHour s) ≠ [],
      ((subRanges it (truncateHour e - truncateHour s)).getLast hne).2 = truncateHour e := by
  have hts : truncateHour s ≤ truncateHour e := by unfold truncateHour; omega
  rw [newIterator_ok a s e w hw hts] at hit
  injection hit with hit
  subst hit
  have hch := runIter_isChain (truncateHour e - truncateHour s)
    ⟨a, truncateHour s, truncateHour e, truncateHourDur w⟩
    (by show (1 : Nat) ≤ truncateHourDur w; unfold truncateHourDur; omega)
    (by show truncateHour s ≤ truncateHour e; exact hts)
    (by show truncateHour e ≤ truncateHour s + (truncateHour e - truncateHour s); omega)
  exact ⟨hch, isChain_union hch, isChain_pairwise hch, isChain_getLast hch⟩

theorem claim1_witness :
    3600 ≤ (3600 : Nat) ∧ (1146711600 : Nat) ≤ 1146722400 ∧
    NewUsageQueryIterator "test-account" 1146711600 1146722400 3600 =
      .ok ⟨"test-account", 1146711600, 1146722400, 3600⟩ ∧
    isChain (truncateHour 1146711600) (truncateHour 1146722400)
      (subRanges ⟨"test-account", 1146711600, 1146722400, 3600⟩
        (truncateHour 1146722400 - truncateHour 1146711600)) :=
  ⟨by decide, by decide, by decide,
   (claim1_iterator_partition "test-account" 1146711600 1146722400 3600 (by decide) (by decide)
     ⟨"test-account", 1146711600, 1146722400, 3600⟩ (by decide)).1⟩

/-- C2: the rendered path offset has the exact form
`account=<account>/date=<YYYY-MM-DD>/hour=<HH>/` from the UTC calendar fields
of the instant, and on the cross-midnight fixture (start 2006-05-04T23:00Z,
end 2006-05-05T01:00Z) the single-shot query's end offset rolls the date to
the next day with hour `01`. -/
theorem claim2_path_offset_format :
    (∀ a t, queryOffset a t =
      "account=" ++ a ++ "/date=" ++ pad4 (dateOfDays (t / 86400)).1 ++ "-" ++
        pad2 (dateOfDays (t / 86400)).2.1 ++ "-" ++ pad2 (dateOfDays (t / 86400)).2.2 ++
        "/hour=" ++ pad2 (t % 86400 / 3600) ++ "/") ∧
    UsageQuery "test-account" 1146783600 1146790800 =
      .ok ("account=test-account/date=2006-05-04/hour=23/",
           "account=test-account/date=2006-05-05/hour=01/") :=
  ⟨fun a t => rfl, by decide⟩

/-- C3: every window strictly below one hour is rejected at construction with
the `InvalidWindow` error message, regardless of account and range. -/
theorem claim3_small_window (a : String) (s e w : Nat) (hw : w < 3600) :
    NewUsageQueryIterator a s e w = .error errWindowTooSmall := by
  unfold NewUsageQueryIterator hourSecs truncateHourDur
  have hm : w % 3600 = w := Nat.mod_eq_of_lt hw
  simp [hm, Nat.sub_self]

theorem claim3_witness :
    (3540 : Nat) < 3600 ∧
    NewUsageQueryIterator "test-account" 1146711600 1146715200 3540 =
      .error errWindowTooSmall :=
  ⟨by decide, claim3_small_window "test-account" 1146711600 1146715200 3540 (by decide)⟩

/-- C4: with an acceptable window, a truncated end before the truncated start
fails construction and the single-shot builder with the `InvalidRange` error,
while an end equal to the start constructs an iterator that is immediately
exhausted: `More` is false and no steps are produced. -/
theorem claim4_range_validation (a : String) (s e w : Nat) (hw : 3600 ≤ w) :
    (truncateHour e < truncateHour s →
      NewUsageQueryIterator a s e w = .error errEndBeforeStart ∧
      UsageQuery a s e = .error errEndBeforeStart) ∧
    (e = s →
      NewUsageQueryIterator a s e w =
        .ok ⟨a, truncateHour s, truncateHour s, truncateHourDur w⟩ ∧
      UsageQueryIterator.More ⟨a, truncateHour s, truncateHour s, truncateHourDur w⟩ = false ∧
      ∀ fuel, runIter fuel ⟨a, truncateHour s, truncateHour s, truncateHourDur w⟩ = []) := by
  constructor
  · intro hlt
    have h1 : ¬ truncateHourDur w < 3600 := by unfold truncateHourDur; omega
    constructor
    · unfold NewUsageQueryIterator hourSecs
      simp [h1, hlt]
    · unfold UsageQuery
      simp [hlt]
  · intro he
    rw [he]
    refine ⟨newIterator_ok a s s w hw (Nat.le_refl _), ?_, ?_⟩
    · simp [UsageQueryIterator.More]
    · intro fuel
      cases fuel with
      | zero => rfl
      | succ n => simp [runIter, UsageQueryIterator.More]

theorem claim4_witness :
    (truncateHour 1146711600 < truncateHour 1146715200 ∧
      NewUsageQueryIterator "test-account" 1146715200 1146711600 3600 =
        .error errEndBeforeStart ∧
      UsageQuery "test-account" 1146715200 1146711600 = .error errEndBeforeStart) ∧
    (NewUsageQueryIterator "test-account" 1146711600 1146711600 3600 =
      .ok ⟨"test-account", 1146711600, 1146711600, 3600⟩ ∧
     UsageQueryIterator.More ⟨"test-account", 1146711600, 1146711600, 3600⟩ = false ∧
     runIter 5 ⟨"test-account", 1146711600, 1146711600, 3600⟩ = []) := by
  have h1 := (claim4_range_validation "test-account" 1146715200 1146711600 3600
    (by decide)).1 (by decide)
  have h2 := (claim4_range_validation "test-account" 1146711600 1146711600 3600
    (by decide)).2 rfl
  exact ⟨⟨by decide, h1.1, h1.2⟩, h2.1, h2.2.1, h2.2.2 5⟩

/-- C5 counterexample: shifting the start by 1m30s is not always invisible —
when the shift crosses an hour boundary (start 00:59:30), the constructed
iterator differs from the one built from the unshifted start. -/
theorem claim5_counterexample :
    ¬ (NewUsageQueryIterator "test-account" (3570 + 90) 7200 3600 =
       NewUsageQueryIterator "test-account" 3570 7200 3600) := by decide

/-- C5 amended: when adding 1m30s to the start does not cross an hour
boundary, the constructed iterator (hence the whole output sequence) is
identical; and every successfully constructed iterator stores start, end and
window truncated down to whole-hour precision. -/
theorem claim5_amended (a : String) (t e w : Nat) (h : t % 3600 + 90 < 3600) :
    NewUsageQueryIterator a (t + 90) e w = NewUsageQueryIterator a t e w ∧
    (∀ it, NewUsageQueryIterator a t e w = .ok it →
      it.Cursor = truncateHour t ∧ it.EndTime = truncateHour e ∧
      it.Window = truncateHourDur w) := by
  constructor
  · have htr : truncateHour (t + 90) = truncateHour t := by
      unfold truncateHour; omega
    unfold NewUsageQueryIterator
    rw [htr]
  · intro it hit
    unfold NewUsageQueryIterator at hit
    by_cases h1 : truncateHourDur w < hourSecs
    · simp [h1] at hit
    · by_cases h2 : truncateHour e < truncateHour t
      · simp [h1, h2] at hit
      · simp [h1, h2] at hit
        subst hit
        exact ⟨rfl, rfl, rfl⟩

theorem claim5_witness :
    (3600 : Nat) % 3600 + 90 < 3600 ∧
    NewUsageQueryIterator "test-account" (3600 + 90) 7200 3660 =
      NewUsageQueryIterator "test-account" 3600 7200 3660 ∧
    NewUsageQueryIterator "test-account" 3600 7200 3660 =
      .ok ⟨"test-account", 3600, 7200, 3600⟩ :=
  ⟨by decide, (claim5_amended "test-account" 3600 7200 3660 (by decide)).1, by decide⟩

/-- Unfolding of `Encode` on a successfully serialized event: the built byte
sequence is written in one call and the outcome decides the new state. -/
theorem Encode_ok {σ : Type} (S : Sink σ) (e : MCPGVKEventEncoder σ) (s : String) :
    MCPGVKEventEncoder.Encode S e (.ok s) =
      match S.write e.w (((if e.wroteFirstItem then "," else "") ++ "\n") ++ s) with
      | .error err => (e, some err)
      | .ok w2 => (⟨w2, true⟩, none) := rfl

/-- C6 counterexample: for two successfully encoded records, the byte stream
is not the claimed `[` LF r1 LF `,` LF r2 LF `]` LF — no newline is written
between a record and the following comma. -/
theorem claim6_counterexample :
    ¬ (encodeAll [.ok "\x7b\"a\":1\x7d", .ok "\x7b\"b\":2\x7d"] =
       .ok ("[" ++ "\n" ++ "\x7b\"a\":1\x7d" ++ "\n" ++ "," ++ "\n" ++ "\x7b\"b\":2\x7d" ++
            "\n" ++ "]" ++ "\n")) := by decide

/-- C6 amended: for every pair of records encoded successfully followed by
`Close`, the exact byte stream is `[` LF r1 `,` LF r2 LF `]` LF — the comma
directly follows the first record and a newline follows the comma. -/
theorem claim6_amended (r1 r2 : String) :
    encodeAll [.ok r1, .ok r2] = .ok ("[\n" ++ r1 ++ ",\n" ++ r2 ++ "\n]\n") := by
  simp [encodeAll, encodeAllGo, NewMCPGVKEventEncoder, MCPGVKEventEncoder.Encode,
    MCPGVKEventEncoder.Close, bufSink]
  rw [← String.append_assoc]
  congr 1

/-- C7: encoding zero records and closing yields bytes parsing as the empty
JSON array; encoding the records `\x7b"a":1\x7d` and `\x7b"b":2\x7d` and
closing yields bytes parsing as the ordered two-element array of those
objects. -/
theorem claim7_roundtrip :
    encodeAll [] = .ok "[\n]\n" ∧
    parseJSON "[\n]\n" = some (.arr []) ∧
    encodeAll [.ok "\x7b\"a\":1\x7d", .ok "\x7b\"b\":2\x7d"] =
      .ok "[\n\x7b\"a\":1\x7d,\n\x7b\"b\":2\x7d\n]\n" ∧
    parseJSON "[\n\x7b\"a\":1\x7d,\n\x7b\"b\":2\x7d\n]\n" =
      some (.arr [.obj [("a", .num 1)], .obj [("b", .num 2)]]) :=
  ⟨rfl, rfl, rfl, rfl⟩

/-- C8: `Encode` is atomic with respect to the separator state: a
serialization failure returns the error with nothing written and the state
unchanged; a sink write failure returns the error with `wroteFirstItem`
keeping its prior value; and `wroteFirstItem` is set exactly when the write
returned no error. -/
theorem claim8_encode_atomic {σ : Type} (S : Sink σ) (e : MCPGVKEventEncoder σ)
    (m : Except String String) :
    (∀ err, m = .error err → MCPGVKEventEncoder.Encode S e m = (e, some err)) ∧
    (∀ s err, m = .ok s →
      S.write e.w (((if e.wroteFirstItem then "," else "") ++ "\n") ++ s) = .error err →
      MCPGVKEventEncoder.Encode S e m = (e, some err)) ∧
    ((MCPGVKEventEncoder.Encode S e m).2 = none →
      (MCPGVKEventEncoder.Encode S e m).1.wroteFirstItem = true) ∧
    ((MCPGVKEventEncoder.Encode S e m).2 ≠ none →
      (MCPGVKEventEncoder.Encode S e m).1 = e) := by
  cases m with
  | error err =>
    refine ⟨?_, ?_, ?_, ?_⟩
    · intro err2 hm
      injection hm with h
      rw [h]
      rfl
    · intro s err2 hm
      exact absurd hm (by simp)
    · intro hnone
      have hEnc : MCPGVKEventEncoder.Encode S e (.error err) = (e, some err) := rfl
      rw [hEnc] at hnone
      simp at hnone
    · intro _
      rfl
  | ok s =>
    cases hwr : S.write e.w (((if e.wroteFirstItem then "," else "") ++ "\n") ++ s) with
    | error err =>
      have hEnc : MCPGVKEventEncoder.Encode S e (.ok s) = (e, some err) := by
        rw [Encode_ok, hwr]
      refine ⟨?_, ?_, ?_, ?_⟩
      · intro err2 hm
        exact absurd hm (by simp)
      · intro s2 err2 hm hw2
        injection hm with h
        rw [← h] at hw2
        rw [hwr] at hw2
        injection hw2 with h2
        rw [hEnc, h2]
      · intro hnone
        rw [hEnc] at hnone
        simp at hnone
      · intro _
        rw [hEnc]
    | ok w2 =>
      have hEnc : MCPGVKEventEncoder.Encode S e (.ok s) = (⟨w2, true⟩, none) := by
        rw [Encode_ok, hwr]
      refine ⟨?_, ?_, ?_, ?_⟩
      · intro err2 hm
        exact absurd hm (by simp)
      · intro s2 err2 hm hw2
        injection hm with h
        rw [← h] at hw2
        rw [hwr] at hw2
        exact absurd hw2 (by simp)
      · intro _
        rw [hEnc]
      · intro hne
        rw [hEnc] at hne
        simp at hne

theorem claim8_witness :
    ((.error "bad event" : Except String String) = .error "bad event") ∧
    MCPGVKEventEncoder.Encode bufSink ⟨"[", false⟩ (.error "bad event") =
      (⟨"[", false⟩, some "bad event") :=
  ⟨rfl, (claim8_encode_atomic bufSink ⟨"[", false⟩ (.error "bad event")).1 "bad event" rfl⟩

/-- C9: the encoder enforces no lifecycle. Over a sink that accepts all
writes, a second `Close` writes the closing sequence again with no error, an
`Encode` after `Close` writes the record after the closing bracket with no
error, and the resulting concrete byte streams no longer parse as JSON. -/
theorem claim9_no_lifecycle (e : MCPGVKEventEncoder String) (r : String) :
    MCPGVKEventEncoder.Close bufSink (MCPGVKEventEncoder.Close bufSink e).1 =
      (⟨(e.w ++ "\n]\n") ++ "\n]\n", e.wroteFirstItem⟩, none) ∧
    MCPGVKEventEncoder.Encode bufSink (MCPGVKEventEncoder.Close bufSink e).1 (.ok r) =
      (⟨(e.w ++ "\n]\n") ++ (((if e.wroteFirstItem then "," else "") ++ "\n") ++ r), true⟩,
       none) ∧
    parseJSON (MCPGVKEventEncoder.Close bufSink (MCPGVKEventEncoder.Close bufSink
        (MCPGVKEventEncoder.Encode bufSink ⟨"[", false⟩ (.ok "\x7b\"a\":1\x7d")).1).1).1.w =
      none ∧
    parseJSON (MCPGVKEventEncoder.Encode bufSink (MCPGVKEventEncoder.Close bufSink
        (MCPGVKEventEncoder.Encode bufSink ⟨"[", false⟩ (.ok "\x7b\"a\":1\x7d")).1).1
        (.ok "\x7b\"b\":2\x7d")).1.w = none :=
  ⟨rfl, rfl, rfl, rfl⟩

/-- The matching loop with `Force` set never fails and remembers the ID of
the last match, or keeps the accumulator when nothing matches. -/
theorem findRobotID_force (name account : String) :
    ∀ (rs : List Robot) (acc : Option Nat),
      findRobotID true name account rs acc =
        .ok (match lastMatchID name rs with
             | some i => some i
             | none => acc) := by
  intro rs
  induction rs with
  | nil => intro acc; rfl
  | cons r rest ih =>
    intro acc
    by_cases hr : r.Name = name
    · cases hlm : lastMatchID name rest with
      | none => simp [findRobotID, hr, ih, lastMatchID, hlm]
      | some i => simp [findRobotID, hr, ih, lastMatchID, hlm]
    · cases hlm : lastMatchID name rest with
      | none => simp [findRobotID, hr, ih, lastMatchID, hlm]
      | some i => simp [findRobotID, hr, ih, lastMatchID, hlm]

/-- The matching loop without `Force` fails as soon as a match is seen while
one is already remembered. -/
theorem findRobotID_noforce_dup1 (name account : String) :
    ∀ (rs : List Robot) (a : Nat), 1 ≤ matchCount name rs →
      findRobotID false name account rs (some a) =
        .error (errMultipleRobot name account) := by
  intro rs
  induction rs with
  | nil => intro a h; simp [matchCount] at h
  | cons r rest ih =>
    intro a h
    by_cases hr : r.Name = name
    · simp [findRobotID, hr]
    · have h1 : 1 ≤ matchCount name rest := by
        simpa [matchCount, List.filter_cons, hr] using h
      simp [findRobotID, hr, ih _ h1]

/-- The matching loop without `Force` fails whenever at least two robots
match. -/
theorem findRobotID_noforce_dup2 (name account : String) :
    ∀ rs : List Robot, 2 ≤ matchCount name rs →
      findRobotID false name account rs none =
        .error (errMultipleRobot name account) := by
  intro rs
  induction rs with
  | nil => intro h; simp [matchCount] at h
  | cons r rest ih =>
    intro h
    by_cases hr : r.Name = name
    · have h1 : 1 ≤ matchCount name rest := by
        simp [matchCount, List.filter_cons, hr] at h ⊢
        omega
      simp [findRobotID, hr, findRobotID_noforce_dup1 name account rest _ h1]
    · have h2 : 2 ≤ matchCount name rest := by
        simpa [matchCount, List.filter_cons, hr] using h
      simp [findRobotID, hr, ih h2]

/-- C10: with `Force`, the robot delete command never reports ambiguity and
deletes exactly the robot whose matching entry occurs last in the listing
order; without `Force`, two or more matches always yield the multiple-robots
error and nothing is deleted. -/
theorem claim10_force_delete_semantics (name account : String) (rs : List Robot) :
    (deleteCmdRun true name account rs =
      match lastMatchID name rs with
      | some i => .ok i
      | none => .error (errFindRobot name account)) ∧
    (2 ≤ matchCount name rs →
      deleteCmdRun false name account rs = .error (errMultipleRobot name account)) := by
  constructor
  · cases rs with
    | nil => rfl
    | cons r rest =>
      have hlen : ¬ ((r :: rest).length = 0) := by simp
      unfold deleteCmdRun
      rw [if_neg hlen, findRobotID_force name account (r :: rest) none]
      cases hlm : lastMatchID name (r :: rest) <;> simp [hlm]
  · intro h2
    have hne : ¬ (rs.length = 0) := by
      cases rs with
      | nil => simp [matchCount] at h2
      | cons r rest => simp
    unfold deleteCmdRun
    rw [if_neg hne, findRobotID_noforce_dup2 name account rs h2]

theorem claim10_witness :
    deleteCmdRun true "bot" "acme" [⟨"bot", 1⟩, ⟨"bot", 2⟩] = .ok 2 ∧
    2 ≤ matchCount "bot" [⟨"bot", 1⟩, ⟨"bot", 2⟩] ∧
    deleteCmdRun false "bot" "acme" [⟨"bot", 1⟩, ⟨"bot", 2⟩] =
      .error (errMultipleRobot "bot" "acme") := by
  have h := claim10_force_delete_semantics "bot" "acme" [⟨"bot", 1⟩, ⟨"bot", 2⟩]
  exact ⟨h.1.trans (by rfl), by decide, h.2 (by decide)⟩

end Up
